import Mathlib

/-!
Verification of the CSV reconciliation tool `CBS_printer_discrepency_finder.py`.

The tool has three core functions:
* `find_duplicate_ips_in_csv` — maps each IP occurring more than once in a
  source to the list of its (1-based, header-adjusted) row positions;
* `load_csv_as_dict` — builds an index from IP to position list plus
  last-seen ID tag / serial number (uppercased, trimmed);
* `compare_csvs` — computes only-in-A / only-in-B key sets and classifies
  the shared keys into exact matches and mismatches.

The embedding works over `List Row` (the spec's `Source`: the ordered data
rows of a file, already split into the three named columns), and models
Python dicts as insertion-ordered association lists.  A second, fallible
layer (`RawCsv`, `Except`) models the header/column errors and the
compute-then-print structure of `__main__` (claim C8).
-/

set_option autoImplicit false

namespace CbsFinder

/-- A data row of one CSV file: the raw text of its three used columns,
`IP Address`, `ID Tag` and `Serial Number`. -/
structure Row where
  ip : String
  id_tag : String
  serial_number : String
deriving DecidableEq

/-- Python's `str.strip()` restricted to ASCII whitespace (the only
whitespace the inputs contain): drop leading and trailing whitespace
characters. -/
def isPySpace (c : Char) : Bool :=
  c = ' ' || c = '\t' || c = '\n' || c = '\r' || c = '\x0b' || c = '\x0c'

/-- Model of Python's `str.strip()`. -/
def pyStrip (s : String) : String :=
  ⟨((s.data.dropWhile isPySpace).reverse.dropWhile isPySpace).reverse⟩

/-- Model of Python's `str.upper()` on one character (ASCII case map, which
covers the inputs the tool handles). -/
def pyUpperChar (c : Char) : Char :=
  if 'a' ≤ c ∧ c ≤ 'z' then Char.ofNat (c.toNat - 32) else c

/-- Model of Python's `str.upper()`. -/
def pyUpper (s : String) : String :=
  ⟨s.data.map pyUpperChar⟩

/-- Lookup in an insertion-ordered association list, as Python's `d[k]` /
`k in d` does on a dict. -/
def dictFind {β : Type} (k : String) : List (String × β) → Option β
  | [] => none
  | (k', v) :: rest => if k' = k then some v else dictFind k rest

/-- One step of `ip_to_rows.setdefault(ip, []).append(row_number)` (source
line 21): append the position to the existing entry of `ip`, or add a fresh
entry at the end (Python dicts insert new keys at the end). -/
def addRowTo (m : List (String × List Nat)) (ip : String) (n : Nat) :
    List (String × List Nat) :=
  match m with
  | [] => [(ip, [n])]
  | (k, v) :: rest =>
      if k = ip then (k, v ++ [n]) :: rest else (k, v) :: addRowTo rest ip n

/-- The scan loop of `find_duplicate_ips_in_csv` (source lines 16-21):
`n` is the position of the next row (`enumerate(reader, start=2)`), `acc`
the dict built so far; blank keys are skipped but still advance the
position counter. -/
def ipToRowsAux : List Row → Nat → List (String × List Nat) →
    List (String × List Nat)
  | [], _, acc => acc
  | r :: rest, n, acc =>
      let ip := pyStrip r.ip
      if ip = "" then ipToRowsAux rest (n + 1) acc
      else ipToRowsAux rest (n + 1) (addRowTo acc ip n)

/-- `find_duplicate_ips_in_csv` (source lines 8-25): scan, then keep only
the keys with more than one recorded position. -/
def find_duplicate_ips_in_csv (rows : List Row) : List (String × List Nat) :=
  (ipToRowsAux rows 2 []).filter (fun p => decide (1 < p.2.length))

/-- The per-key payload of the loader's index: position list plus last-seen
uppercased tag and serial (source lines 54-64). -/
structure IpInfo where
  rows : List Nat
  id_tag : String
  serial_number : String
deriving DecidableEq

/-- One step of the loader's dict update (source lines 52-64): a fresh key
gets `{rows := [n], id_tag := t, serial_number := s}` appended at the end;
a recurring key appends `n` to its position list and overwrites tag and
serial with the new values (last-write-wins). -/
def dictUpdate (m : List (String × IpInfo)) (ip t s : String) (n : Nat) :
    List (String × IpInfo) :=
  match m with
  | [] => [(ip, ⟨[n], t, s⟩)]
  | (k, v) :: rest =>
      if k = ip then (k, ⟨v.rows ++ [n], t, s⟩) :: rest
      else (k, v) :: dictUpdate rest ip t s n

/-- The scan loop of `load_csv_as_dict` (source lines 43-66): blank keys
are skipped (before the tag/serial columns are even read); otherwise the
trimmed key is indexed with uppercased trimmed tag and serial. -/
def loadAux : List Row → Nat → List (String × IpInfo) →
    List (String × IpInfo)
  | [], _, acc => acc
  | r :: rest, n, acc =>
      let ip := pyStrip r.ip
      if ip = "" then loadAux rest (n + 1) acc
      else
        loadAux rest (n + 1)
          (dictUpdate acc ip (pyUpper (pyStrip r.id_tag))
            (pyUpper (pyStrip r.serial_number)) n)

/-- `load_csv_as_dict` (source lines 27-68), returning the index dict.  The
`ip_set` the source returns alongside it contains exactly the dict's keys
(both are extended with the same `ip` on the same rows), so the key set is
recovered as `ipSet`. -/
def load_csv_as_dict (rows : List Row) : List (String × IpInfo) :=
  loadAux rows 2 []

/-- The `ip_set` of a source: the keys of its index (source line 66 adds
exactly the keys that lines 52-64 put into the dict). -/
def ipSet (rows : List Row) : List String :=
  (load_csv_as_dict rows).map Prod.fst

/-- `cbs_only_ips = cbs_set - poco_set` (source line 83): as a set of keys,
the Python set difference is membership-characterized by this filter. -/
def cbs_only_ips (a b : List Row) : List String :=
  (ipSet a).filter (fun ip => decide (ip ∉ ipSet b))

/-- `poco_only_ips = poco_set - cbs_set` (source line 84). -/
def poco_only_ips (a b : List Row) : List String :=
  (ipSet b).filter (fun ip => decide (ip ∉ ipSet a))

/-- `common_ips = cbs_set.intersection(poco_set)` (source line 87); Python
set iteration order is unspecified, so any enumeration of the intersection
is a faithful model. -/
def common_ips (a b : List Row) : List String :=
  (ipSet a).filter (fun ip => decide (ip ∈ ipSet b))

/-- Python's `cbs_dict[ip]` for `ip` in the intersection (source lines
94-95): lookup that cannot miss there, modelled with a default. -/
def getInfo (d : List (String × IpInfo)) (ip : String) : IpInfo :=
  (dictFind ip d).getD ⟨[], "", ""⟩

/-- A record of `duplicates_across` (source lines 101-107). -/
structure MatchRec where
  ip_address : String
  cbs_master_rows : List Nat
  poco_sheet_rows : List Nat
  id_tag : String
  serial_number : String
deriving DecidableEq

/-- A record of `mismatches` (source lines 110-118). -/
structure MismatchRec where
  ip_address : String
  cbs_master_rows : List Nat
  poco_sheet_rows : List Nat
  file1_id_tag : String
  file1_serial : String
  file2_id_tag : String
  file2_serial : String
deriving DecidableEq

/-- The comparison of source line 98: the last-known `ID Tag` and
`Serial Number` of `ip` agree between the two indexes. -/
def condEq (dA dB : List (String × IpInfo)) (ip : String) : Prop :=
  (getInfo dA ip).id_tag = (getInfo dB ip).id_tag ∧
    (getInfo dA ip).serial_number = (getInfo dB ip).serial_number

instance (dA dB : List (String × IpInfo)) (ip : String) :
    Decidable (condEq dA dB ip) := by unfold condEq; infer_instance

/-- The classification loop over `common_ips` (source lines 92-118): the
last-known tag and serial from each dict are compared, and the key goes to
`duplicates_across` when both agree, to `mismatches` otherwise. -/
def classify (dA dB : List (String × IpInfo)) :
    List String → List MatchRec × List MismatchRec
  | [] => ([], [])
  | ip :: rest =>
      let res := classify dA dB rest
      if condEq dA dB ip
      then (⟨ip, (getInfo dA ip).rows, (getInfo dB ip).rows,
              (getInfo dA ip).id_tag, (getInfo dA ip).serial_number⟩ ::
                res.1, res.2)
      else (res.1,
            ⟨ip, (getInfo dA ip).rows, (getInfo dB ip).rows,
              (getInfo dA ip).id_tag, (getInfo dA ip).serial_number,
              (getInfo dB ip).id_tag, (getInfo dB ip).serial_number⟩ ::
                res.2)

/-- `duplicates_across` as produced by `compare_csvs` (source lines 89-107). -/
def duplicates_across (a b : List Row) : List MatchRec :=
  (classify (load_csv_as_dict a) (load_csv_as_dict b) (common_ips a b)).1

/-- `mismatches` as produced by `compare_csvs` (source lines 90-118). -/
def mismatches (a b : List Row) : List MismatchRec :=
  (classify (load_csv_as_dict a) (load_csv_as_dict b) (common_ips a b)).2

/-- `compare_csvs` (source lines 70-120): the four result collections. -/
def compare_csvs (a b : List Row) :
    List MatchRec × List MismatchRec × List String × List String :=
  (duplicates_across a b, mismatches a b, cbs_only_ips a b, poco_only_ips a b)

/-- The keys of the exact-match records. -/
def matchKeys (a b : List Row) : List String :=
  (duplicates_across a b).map MatchRec.ip_address

/-- The keys of the conflict records. -/
def conflictKeys (a b : List Row) : List String :=
  (mismatches a b).map MismatchRec.ip_address

/-! Specification-side observations on a source, used to state the claims:
the positions at which a key occurs and the last row carrying it. -/

/-- The positions (starting at `n`) of the rows whose trimmed `IP Address`
equals `k`; a blank `k` matches nothing, as both scans skip blank keys. -/
def occPositions (n : Nat) (rows : List Row) (k : String) : List Nat :=
  match rows with
  | [] => []
  | r :: rest =>
      if pyStrip r.ip = k ∧ k ≠ "" then n :: occPositions (n + 1) rest k
      else occPositions (n + 1) rest k

/-- The rows of a source carrying the key `k`. -/
def rowsWithKey (rows : List Row) (k : String) : List Row :=
  rows.filter (fun r => decide (pyStrip r.ip = k))

/-- The last row of a source carrying the key `k`, if any. -/
def lastOcc (rows : List Row) (k : String) : Option Row :=
  (rowsWithKey rows k).getLast?

/-- Number of rows of a source whose key survives the blank-key filter. -/
def countNonBlank (rows : List Row) : Nat :=
  (rows.filter (fun r => decide (pyStrip r.ip ≠ ""))).length

/-- Total number of positions reported by the duplicate detector. -/
def dupLenSum (rows : List Row) : Nat :=
  ((find_duplicate_ips_in_csv rows).map (fun e => e.2.length)).sum

/-! Association-list lemmas. -/

theorem dictFind_isSome_iff {β : Type} (k : String) (m : List (String × β)) :
    (dictFind k m).isSome ↔ k ∈ m.map Prod.fst := by
  induction m with
  | nil => simp [dictFind]
  | cons e rest ih =>
      obtain ⟨k', v⟩ := e
      by_cases h : k' = k
      · subst h; simp [dictFind]
      · simp [dictFind, h, ih, Ne.symm h]

theorem dictFind_mem {β : Type} {k : String} {m : List (String × β)} {v : β}
    (h : dictFind k m = some v) : (k, v) ∈ m := by
  induction m with
  | nil => simp [dictFind] at h
  | cons e rest ih =>
      obtain ⟨k', v'⟩ := e
      by_cases hk : k' = k
      · subst hk
        simp [dictFind] at h
        simp [h]
      · simp [dictFind, hk] at h
        simp [ih h]

theorem dictFind_eq_none_of_not_mem {β : Type} {k : String}
    {m : List (String × β)} (h : k ∉ m.map Prod.fst) : dictFind k m = none := by
  cases hf : dictFind k m with
  | none => rfl
  | some v =>
      exact absurd (List.mem_map.2 ⟨(k, v), dictFind_mem hf, rfl⟩) h

theorem dictFind_addRowTo_self (m : List (String × List Nat)) (ip : String)
    (n : Nat) :
    dictFind ip (addRowTo m ip n) = some ((dictFind ip m).getD [] ++ [n]) := by
  induction m with
  | nil => simp [addRowTo, dictFind]
  | cons e rest ih =>
      obtain ⟨k, v⟩ := e
      by_cases h : k = ip
      · subst h; simp [addRowTo, dictFind]
      · simp [addRowTo, dictFind, h, ih]

theorem dictFind_addRowTo_ne (m : List (String × List Nat)) (ip k : String)
    (n : Nat) (h : k ≠ ip) :
    dictFind k (addRowTo m ip n) = dictFind k m := by
  induction m with
  | nil => simp [addRowTo, dictFind, Ne.symm h]
  | cons e rest ih =>
      obtain ⟨k', v⟩ := e
      by_cases h' : k' = ip
      · subst h'
        simp [addRowTo, dictFind, Ne.symm h]
      · by_cases h'' : k' = k <;> simp [addRowTo, dictFind, h', h'', ih, h]

theorem addRowTo_keys (m : List (String × List Nat)) (ip : String) (n : Nat) :
    (addRowTo m ip n).map Prod.fst =
      if (dictFind ip m).isSome then m.map Prod.fst
      else m.map Prod.fst ++ [ip] := by
  induction m with
  | nil => simp [addRowTo, dictFind]
  | cons e rest ih =>
      obtain ⟨k, v⟩ := e
      by_cases h : k = ip
      · subst h; simp [addRowTo, dictFind]
      · simp only [addRowTo, dictFind, if_neg h, List.map_cons, ih]
        by_cases hs : (dictFind ip rest).isSome <;> simp [hs]

theorem addRowTo_snd_ne_nil {m : List (String × List Nat)} {ip : String}
    {n : Nat} (h : ∀ e ∈ m, e.2 ≠ []) :
    ∀ e ∈ addRowTo m ip n, e.2 ≠ [] := by
  induction m with
  | nil =>
      intro e he
      simp [addRowTo] at he
      subst he; simp
  | cons e0 rest ih =>
      obtain ⟨k, v⟩ := e0
      intro e he
      by_cases hk : k = ip
      · subst hk
        simp only [addRowTo, if_pos rfl] at he
        rcases List.mem_cons.1 he with h1 | h1
        · subst h1; simp
        · exact h e (List.mem_cons_of_mem _ h1)
      · simp only [addRowTo, if_neg hk] at he
        rcases List.mem_cons.1 he with h1 | h1
        · subst h1; exact h (k, v) (List.mem_cons_self _ _)
        · exact ih (fun e' he' => h e' (List.mem_cons_of_mem _ he')) e h1

theorem addRowTo_sum (m : List (String × List Nat)) (ip : String) (n : Nat) :
    ((addRowTo m ip n).map (fun e => e.2.length)).sum =
      (m.map (fun e => e.2.length)).sum + 1 := by
  induction m with
  | nil => simp [addRowTo]
  | cons e rest ih =>
      obtain ⟨k, v⟩ := e
      by_cases h : k = ip
      · subst h; simp [addRowTo]; omega
      · simp [addRowTo, h, ih]; omega

theorem dictFind_dictUpdate_self (m : List (String × IpInfo)) (ip t s : String)
    (n : Nat) :
    dictFind ip (dictUpdate m ip t s n) =
      some ⟨((dictFind ip m).map IpInfo.rows).getD [] ++ [n], t, s⟩ := by
  induction m with
  | nil => simp [dictUpdate, dictFind]
  | cons e rest ih =>
      obtain ⟨k, v⟩ := e
      by_cases h : k = ip
      · subst h; simp [dictUpdate, dictFind]
      · simp [dictUpdate, dictFind, h, ih]

theorem dictFind_dictUpdate_ne (m : List (String × IpInfo)) (ip t s k : String)
    (n : Nat) (h : k ≠ ip) :
    dictFind k (dictUpdate m ip t s n) = dictFind k m := by
  induction m with
  | nil => simp [dictUpdate, dictFind, Ne.symm h]
  | cons e rest ih =>
      obtain ⟨k', v⟩ := e
      by_cases h' : k' = ip
      · subst h'
        simp [dictUpdate, dictFind, Ne.symm h]
      · by_cases h'' : k' = k <;> simp [dictUpdate, dictFind, h', h'', ih, h]

theorem dictFind_filter {β : Type} (q : String × β → Bool)
    (m : List (String × β)) (hnd : (m.map Prod.fst).Nodup) (k : String) :
    dictFind k (m.filter q) =
      (dictFind k m).bind (fun v => if q (k, v) then some v else none) := by
  induction m with
  | nil => simp [dictFind]
  | cons e rest ih =>
      obtain ⟨k', v'⟩ := e
      simp only [List.map_cons, List.nodup_cons] at hnd
      by_cases hk : k' = k
      · subst hk
        by_cases hq : q (k', v')
        · simp [List.filter, hq, dictFind]
        · have hnone : dictFind k' (rest.filter q) = none := by
            refine dictFind_eq_none_of_not_mem ?_
            intro hmem
            rcases List.mem_map.1 hmem with ⟨e, he, hfst⟩
            exact hnd.1 (List.mem_map.2 ⟨e, (List.mem_filter.1 he).1, hfst⟩)
          simp [List.filter, hq, dictFind, hnone]
      · by_cases hq : q (k', v') <;>
          simp [List.filter, hq, dictFind, hk, ih hnd.2]

/-! Lemmas about `occPositions`, `rowsWithKey` and `lastOcc`. -/

theorem occPositions_blank (n : Nat) (rows : List Row) :
    occPositions n rows "" = [] := by
  induction rows generalizing n with
  | nil => rfl
  | cons r rest ih => simp [occPositions, ih]

theorem occPositions_eq_nil_iff (n : Nat) (rows : List Row) (k : String)
    (hk : k ≠ "") :
    occPositions n rows k = [] ↔ rowsWithKey rows k = [] := by
  induction rows generalizing n with
  | nil => simp [occPositions, rowsWithKey]
  | cons r rest ih =>
      by_cases h : pyStrip r.ip = k
      · simp [occPositions, rowsWithKey, h, hk, List.filter]
      · simp [occPositions, rowsWithKey, h, List.filter, ih (n + 1)]

theorem occPositions_mem {n : Nat} {rows : List Row} {k : String} {p : Nat}
    (h : p ∈ occPositions n rows k) :
    ∃ i r, rows.get? i = some r ∧ pyStrip r.ip = k ∧ p = n + i := by
  induction rows generalizing n with
  | nil => simp [occPositions] at h
  | cons r rest ih =>
      by_cases hc : pyStrip r.ip = k ∧ k ≠ ""
      · simp only [occPositions, if_pos hc] at h
        rcases List.mem_cons.1 h with h1 | h1
        · exact ⟨0, r, rfl, hc.1, by omega⟩
        · rcases ih h1 with ⟨i, r', hget, hkey, hp⟩
          exact ⟨i + 1, r', hget, hkey, by omega⟩
      · simp only [occPositions, if_neg hc] at h
        rcases ih h with ⟨i, r', hget, hkey, hp⟩
        exact ⟨i + 1, r', hget, hkey, by omega⟩

theorem occPositions_ge_and_sorted (rows : List Row) (n : Nat) (k : String) :
    (∀ p ∈ occPositions n rows k, n ≤ p) ∧
      (occPositions n rows k).Pairwise (· < ·) := by
  induction rows generalizing n with
  | nil => simp [occPositions]
  | cons r rest ih =>
      by_cases hc : pyStrip r.ip = k ∧ k ≠ ""
      · simp only [occPositions, if_pos hc]
        refine ⟨?_, ?_⟩
        · intro p hp
          rcases List.mem_cons.1 hp with h1 | h1
          · omega
          · have := (ih (n + 1)).1 p h1; omega
        · refine List.pairwise_cons.2 ⟨?_, (ih (n + 1)).2⟩
          intro p hp
          have := (ih (n + 1)).1 p hp; omega
      · simp only [occPositions, if_neg hc]
        refine ⟨fun p hp => ?_, (ih (n + 1)).2⟩
        have := (ih (n + 1)).1 p hp; omega

theorem occPositions_ne_nil_of_mem {rows : List Row} {k : String} {r : Row}
    (n : Nat) (hr : r ∈ rows) (hkey : pyStrip r.ip = k) (hk : k ≠ "") :
    occPositions n rows k ≠ [] := by
  induction rows generalizing n with
  | nil => simp at hr
  | cons r0 rest ih =>
      by_cases hc : pyStrip r0.ip = k ∧ k ≠ ""
      · simp [occPositions, hc]
      · simp only [occPositions, if_neg hc]
        rcases List.mem_cons.1 hr with h1 | h1
        · subst h1; exact absurd ⟨hkey, hk⟩ hc
        · exact ih (n + 1) h1

theorem lastOcc_mem {rows : List Row} {k : String} {r : Row}
    (h : lastOcc rows k = some r) : r ∈ rows ∧ pyStrip r.ip = k := by
  have hmem := List.mem_of_mem_getLast? h
  have := List.mem_filter.1 hmem
  exact ⟨this.1, by simpa using this.2⟩

theorem getLast?_cons_of_ne_nil {α : Type} (a : α) {l : List α}
    (h : l ≠ []) : (a :: l).getLast? = l.getLast? := by
  cases l with
  | nil => exact absurd rfl h
  | cons b l' => exact List.getLast?_cons_cons

/-- The last element of the occurrence-position list locates the last
occurrence of the key: position `n + i` corresponds to index `i`. -/
theorem occPositions_getLast (rows : List Row) (n : Nat) (k : String)
    (hk : k ≠ "") :
    (occPositions n rows k = [] ∧ lastOcc rows k = none) ∨
      (∃ p r i, (occPositions n rows k).getLast? = some p ∧
        lastOcc rows k = some r ∧ p = n + i ∧ rows.get? i = some r) := by
  induction rows generalizing n with
  | nil => exact Or.inl ⟨rfl, rfl⟩
  | cons r0 rest ih =>
      have hro : rowsWithKey (r0 :: rest) k =
          if pyStrip r0.ip = k then r0 :: rowsWithKey rest k
          else rowsWithKey rest k := by
        by_cases h : pyStrip r0.ip = k <;> simp [rowsWithKey, List.filter, h]
      by_cases h : pyStrip r0.ip = k
      · have hocc : occPositions n (r0 :: rest) k =
            n :: occPositions (n + 1) rest k := by
          simp [occPositions, h, hk]
        rcases ih (n + 1) with ⟨h1, h2⟩ | ⟨p, r, i, h1, h2, h3, h4⟩
        · refine Or.inr ⟨n, r0, 0, ?_, ?_, by omega, rfl⟩
          · simp [hocc, h1]
          · have : rowsWithKey rest k = [] :=
              (occPositions_eq_nil_iff (n + 1) rest k hk).1 h1
            simp [lastOcc, hro, h, this]
        · refine Or.inr ⟨p, r, i + 1, ?_, ?_, by omega, h4⟩
          · rw [hocc]
            rw [getLast?_cons_of_ne_nil]
            · exact h1
            · intro hnil
              rw [hnil] at h1; simp at h1
          · have hne : rowsWithKey rest k ≠ [] := by
              intro hnil
              rw [lastOcc, hnil] at h2; simp at h2
            rw [lastOcc, hro, if_pos h, getLast?_cons_of_ne_nil _ hne]
            exact h2
      · have hocc : occPositions n (r0 :: rest) k =
            occPositions (n + 1) rest k := by
          simp [occPositions, h]
        have hlast : lastOcc (r0 :: rest) k = lastOcc rest k := by
          simp [lastOcc, hro, h]
        rcases ih (n + 1) with ⟨h1, h2⟩ | ⟨p, r, i, h1, h2, h3, h4⟩
        · exact Or.inl ⟨by simp [hocc, h1], by simp [hlast, h2]⟩
        · exact Or.inr ⟨p, r, i + 1, by simp [hocc, h1],
            by simp [hlast, h2], by omega, h4⟩

theorem rowsWithKey_cons (r0 : Row) (rest : List Row) (k : String) :
    rowsWithKey (r0 :: rest) k =
      if pyStrip r0.ip = k then r0 :: rowsWithKey rest k
      else rowsWithKey rest k := by
  by_cases h : pyStrip r0.ip = k <;> simp [rowsWithKey, List.filter, h]

theorem lastOcc_eq_none_iff (rows : List Row) (k : String) :
    lastOcc rows k = none ↔ rowsWithKey rows k = [] := by
  simp [lastOcc, List.getLast?_eq_none_iff]

/-- Full characterization of the loader's scan: the entry for a non-blank
key `k` after processing `rows` starting at position `n` on top of `acc`. -/
theorem loadAux_find (k : String) (hk : k ≠ "") (rows : List Row) :
    ∀ (n : Nat) (acc : List (String × IpInfo)),
    dictFind k (loadAux rows n acc) =
      match lastOcc rows k with
      | none => dictFind k acc
      | some r =>
          some ⟨((dictFind k acc).map IpInfo.rows).getD [] ++
              occPositions n rows k,
            pyUpper (pyStrip r.id_tag), pyUpper (pyStrip r.serial_number)⟩ := by
  induction rows with
  | nil => intro n acc; simp [loadAux, lastOcc, rowsWithKey]
  | cons r0 rest ih =>
      intro n acc
      by_cases hkey : pyStrip r0.ip = k
      · have hb : pyStrip r0.ip ≠ "" := by rw [hkey]; exact hk
        have h1 : loadAux (r0 :: rest) n acc =
            loadAux rest (n + 1)
              (dictUpdate acc k (pyUpper (pyStrip r0.id_tag))
                (pyUpper (pyStrip r0.serial_number)) n) := by
          rw [← hkey]; simp [loadAux, hb]
        have hocc : occPositions n (r0 :: rest) k =
            n :: occPositions (n + 1) rest k := by
          simp [occPositions, hkey, hk]
        have hdf := dictFind_dictUpdate_self acc k
          (pyUpper (pyStrip r0.id_tag)) (pyUpper (pyStrip r0.serial_number)) n
        rw [h1, ih (n + 1) _, hdf]
        cases hrest : lastOcc rest k with
        | none =>
            have hnil : rowsWithKey rest k = [] :=
              (lastOcc_eq_none_iff rest k).1 hrest
            have hoccT : occPositions (n + 1) rest k = [] :=
              (occPositions_eq_nil_iff (n + 1) rest k hk).2 hnil
            have hlast : lastOcc (r0 :: rest) k = some r0 := by
              simp [lastOcc, rowsWithKey_cons, hkey, hnil]
            rw [hlast, hocc, hoccT]
        | some r' =>
            have hne : rowsWithKey rest k ≠ [] := by
              intro hnil
              rw [lastOcc, hnil] at hrest; simp at hrest
            have hlast : lastOcc (r0 :: rest) k = some r' := by
              rw [lastOcc, rowsWithKey_cons, if_pos hkey,
                getLast?_cons_of_ne_nil _ hne]
              exact hrest
            rw [hlast, hocc]
            simp
      · by_cases hb : pyStrip r0.ip = ""
        · have h1 : loadAux (r0 :: rest) n acc = loadAux rest (n + 1) acc := by
            simp [loadAux, hb]
          have h2 : lastOcc (r0 :: rest) k = lastOcc rest k := by
            simp [lastOcc, rowsWithKey_cons, hkey]
          have h3 : occPositions n (r0 :: rest) k =
              occPositions (n + 1) rest k := by
            simp [occPositions, hkey]
          rw [h1, h2, h3]
          exact ih (n + 1) acc
        · have h1 : loadAux (r0 :: rest) n acc =
              loadAux rest (n + 1)
                (dictUpdate acc (pyStrip r0.ip)
                  (pyUpper (pyStrip r0.id_tag))
                  (pyUpper (pyStrip r0.serial_number)) n) := by
            simp [loadAux, hb]
          have hdf : dictFind k
              (dictUpdate acc (pyStrip r0.ip)
                (pyUpper (pyStrip r0.id_tag))
                (pyUpper (pyStrip r0.serial_number)) n) = dictFind k acc :=
            dictFind_dictUpdate_ne _ _ _ _ _ _ (fun h => hkey h.symm)
          have h2 : lastOcc (r0 :: rest) k = lastOcc rest k := by
            simp [lastOcc, rowsWithKey_cons, hkey]
          have h3 : occPositions n (r0 :: rest) k =
              occPositions (n + 1) rest k := by
            simp [occPositions, hkey]
          rw [h1, ih (n + 1) _, hdf, h2, h3]

/-- The loader's index entry for a non-blank key: the full occurrence
position list together with the trimmed-and-uppercased tag and serial of
the last occurrence. -/
theorem load_find (rows : List Row) (k : String) (hk : k ≠ "") :
    dictFind k (load_csv_as_dict rows) =
      match lastOcc rows k with
      | none => none
      | some r =>
          some ⟨occPositions 2 rows k, pyUpper (pyStrip r.id_tag),
            pyUpper (pyStrip r.serial_number)⟩ := by
  have := loadAux_find k hk rows 2 []
  rw [load_csv_as_dict, this]
  cases lastOcc rows k <;> simp [dictFind]

theorem loadAux_find_blank (rows : List Row) :
    ∀ (n : Nat) (acc : List (String × IpInfo)),
    dictFind "" (loadAux rows n acc) = dictFind "" acc := by
  induction rows with
  | nil => intro n acc; simp [loadAux]
  | cons r0 rest ih =>
      intro n acc
      by_cases hb : pyStrip r0.ip = ""
      · simp [loadAux, hb, ih]
      · simp only [loadAux, if_neg hb]
        rw [ih, dictFind_dictUpdate_ne _ _ _ _ _ _ (fun h => hb h.symm)]

theorem load_find_blank (rows : List Row) :
    dictFind "" (load_csv_as_dict rows) = none := by
  rw [load_csv_as_dict, loadAux_find_blank]; rfl

/-- Membership in a source's key set: exactly the non-blank trimmed keys of
its rows. -/
theorem mem_ipSet_iff (rows : List Row) (k : String) :
    k ∈ ipSet rows ↔ (k ≠ "" ∧ ∃ r ∈ rows, pyStrip r.ip = k) := by
  rw [ipSet, ← dictFind_isSome_iff]
  by_cases hk : k = ""
  · subst hk
    simp [load_find_blank]
  · rw [load_find rows k hk]
    cases hlast : lastOcc rows k with
    | none =>
        simp only [Option.isSome_none, Bool.false_eq_true, false_iff]
        rw [lastOcc_eq_none_iff] at hlast
        rintro ⟨-, r, hr, hkey⟩
        have : r ∈ rowsWithKey rows k := by
          simp [rowsWithKey, List.mem_filter, hr, hkey]
        rw [hlast] at this
        simp at this
    | some r =>
        simp only [Option.isSome_some, true_iff]
        have := lastOcc_mem hlast
        exact ⟨hk, r, this.1, this.2⟩

/-! Characterization of the duplicate detector's scan. -/

theorem ipToRowsAux_find (k : String) (hk : k ≠ "") (rows : List Row) :
    ∀ (n : Nat) (acc : List (String × List Nat)),
    dictFind k (ipToRowsAux rows n acc) =
      if occPositions n rows k = [] then dictFind k acc
      else some ((dictFind k acc).getD [] ++ occPositions n rows k) := by
  induction rows with
  | nil => intro n acc; simp [ipToRowsAux, occPositions]
  | cons r0 rest ih =>
      intro n acc
      by_cases hkey : pyStrip r0.ip = k
      · have hb : pyStrip r0.ip ≠ "" := by rw [hkey]; exact hk
        have h1 : ipToRowsAux (r0 :: rest) n acc =
            ipToRowsAux rest (n + 1) (addRowTo acc k n) := by
          rw [← hkey]; simp [ipToRowsAux, hb]
        have hocc : occPositions n (r0 :: rest) k =
            n :: occPositions (n + 1) rest k := by
          simp [occPositions, hkey, hk]
        rw [h1, ih (n + 1) _, dictFind_addRowTo_self, hocc]
        by_cases hoccT : occPositions (n + 1) rest k = [] <;> simp [hoccT]
      · by_cases hb : pyStrip r0.ip = ""
        · have h1 : ipToRowsAux (r0 :: rest) n acc =
              ipToRowsAux rest (n + 1) acc := by
            simp [ipToRowsAux, hb]
          have h3 : occPositions n (r0 :: rest) k =
              occPositions (n + 1) rest k := by
            simp [occPositions, hkey]
          rw [h1, h3]
          exact ih (n + 1) acc
        · have h1 : ipToRowsAux (r0 :: rest) n acc =
              ipToRowsAux rest (n + 1) (addRowTo acc (pyStrip r0.ip) n) := by
            simp [ipToRowsAux, hb]
          have h3 : occPositions n (r0 :: rest) k =
              occPositions (n + 1) rest k := by
            simp [occPositions, hkey]
          rw [h1, ih (n + 1) _,
            dictFind_addRowTo_ne _ _ _ _ (fun h => hkey h.symm), h3]

theorem ipToRowsAux_find_blank (rows : List Row) :
    ∀ (n : Nat) (acc : List (String × List Nat)),
    dictFind "" (ipToRowsAux rows n acc) = dictFind "" acc := by
  induction rows with
  | nil => intro n acc; simp [ipToRowsAux]
  | cons r0 rest ih =>
      intro n acc
      by_cases hb : pyStrip r0.ip = ""
      · simp [ipToRowsAux, hb, ih]
      · simp only [ipToRowsAux, if_neg hb]
        rw [ih, dictFind_addRowTo_ne _ _ _ _ (fun h => hb h.symm)]

theorem ipToRows_find (rows : List Row) (k : String) (hk : k ≠ "") :
    dictFind k (ipToRowsAux rows 2 []) =
      if occPositions 2 rows k = [] then none
      else some (occPositions 2 rows k) := by
  rw [ipToRowsAux_find k hk rows 2 []]
  by_cases h : occPositions 2 rows k = [] <;> simp [h, dictFind]

theorem ipToRowsAux_keys_nodup (rows : List Row) :
    ∀ (n : Nat) (acc : List (String × List Nat)),
    (acc.map Prod.fst).Nodup → ((ipToRowsAux rows n acc).map Prod.fst).Nodup := by
  induction rows with
  | nil => intro n acc h; simpa [ipToRowsAux] using h
  | cons r0 rest ih =>
      intro n acc h
      by_cases hb : pyStrip r0.ip = ""
      · simp only [ipToRowsAux, if_pos hb]
        exact ih (n + 1) acc h
      · simp only [ipToRowsAux, if_neg hb]
        refine ih (n + 1) _ ?_
        rw [addRowTo_keys]
        by_cases hs : (dictFind (pyStrip r0.ip) acc).isSome
        · simpa [hs] using h
        · rw [if_neg hs]
          have hnotmem : pyStrip r0.ip ∉ acc.map Prod.fst := by
            intro hmem
            exact hs ((dictFind_isSome_iff _ _).2 hmem)
          simp [List.nodup_append, h, hnotmem]

theorem ipToRowsAux_snd_ne_nil (rows : List Row) :
    ∀ (n : Nat) (acc : List (String × List Nat)),
    (∀ e ∈ acc, e.2 ≠ []) → ∀ e ∈ ipToRowsAux rows n acc, e.2 ≠ [] := by
  induction rows with
  | nil => intro n acc h; simpa [ipToRowsAux] using h
  | cons r0 rest ih =>
      intro n acc h
      by_cases hb : pyStrip r0.ip = ""
      · simp only [ipToRowsAux, if_pos hb]
        exact ih (n + 1) acc h
      · simp only [ipToRowsAux, if_neg hb]
        exact ih (n + 1) _ (addRowTo_snd_ne_nil h)

theorem ipToRowsAux_sum (rows : List Row) :
    ∀ (n : Nat) (acc : List (String × List Nat)),
    ((ipToRowsAux rows n acc).map (fun e => e.2.length)).sum =
      (acc.map (fun e => e.2.length)).sum + countNonBlank rows := by
  induction rows with
  | nil => intro n acc; simp [ipToRowsAux, countNonBlank]
  | cons r0 rest ih =>
      intro n acc
      by_cases hb : pyStrip r0.ip = ""
      · have hc : countNonBlank (r0 :: rest) = countNonBlank rest := by
          simp [countNonBlank, List.filter, hb]
        simp only [ipToRowsAux, if_pos hb, hc]
        exact ih (n + 1) acc
      · have hc : countNonBlank (r0 :: rest) = countNonBlank rest + 1 := by
          simp [countNonBlank, List.filter, hb]
        simp only [ipToRowsAux, if_neg hb, hc]
        rw [ih (n + 1) _, addRowTo_sum]
        omega

/-- Membership in the duplicate detector's output, fully characterized. -/
theorem find_dup_find (rows : List Row) (k : String) (ps : List Nat) :
    dictFind k (find_duplicate_ips_in_csv rows) = some ps ↔
      (ps = occPositions 2 rows k ∧ 2 ≤ ps.length ∧ k ≠ "") := by
  have hnd : (((ipToRowsAux rows 2 []).map Prod.fst)).Nodup :=
    ipToRowsAux_keys_nodup rows 2 [] (by simp)
  rw [find_duplicate_ips_in_csv, dictFind_filter _ _ hnd]
  by_cases hk : k = ""
  · subst hk
    rw [show dictFind "" (ipToRowsAux rows 2 []) = none from
      ipToRowsAux_find_blank rows 2 []]
    simp
  · rw [ipToRows_find rows k hk]
    by_cases hocc : occPositions 2 rows k = []
    · simp only [if_pos hocc, Option.bind_none]
      simp only [hocc]
      constructor
      · intro h; cases h
      · rintro ⟨h1, h2, -⟩
        subst h1; simp at h2
    · rw [if_neg hocc, Option.some_bind]
      by_cases hlen : 1 < (occPositions 2 rows k).length
      · rw [if_pos (by simpa using hlen)]
        constructor
        · intro h
          cases h
          exact ⟨rfl, by omega, hk⟩
        · rintro ⟨h1, -, -⟩
          rw [h1]
      · rw [if_neg (by simpa using hlen)]
        constructor
        · intro h; cases h
        · rintro ⟨h1, h2, -⟩
          subst h1; omega

/-! Lemmas about the classification loop and the three key filters. -/

theorem mem_classify_fst (dA dB : List (String × IpInfo)) (l : List String)
    (rec : MatchRec) :
    rec ∈ (classify dA dB l).1 ↔
      ∃ ip ∈ l, condEq dA dB ip ∧
        rec = ⟨ip, (getInfo dA ip).rows, (getInfo dB ip).rows,
          (getInfo dA ip).id_tag, (getInfo dA ip).serial_number⟩ := by
  induction l with
  | nil => simp [classify]
  | cons ip0 rest ih =>
      by_cases hc : condEq dA dB ip0
      · simp only [classify, if_pos hc, List.mem_cons, ih]
        constructor
        · rintro (h | ⟨ip, hip, hcond, hrec⟩)
          · exact ⟨ip0, Or.inl rfl, hc, h⟩
          · exact ⟨ip, Or.inr hip, hcond, hrec⟩
        · rintro ⟨ip, hip | hip, hcond, hrec⟩
          · subst hip; exact Or.inl hrec
          · exact Or.inr ⟨ip, hip, hcond, hrec⟩
      · simp only [classify, if_neg hc, ih]
        constructor
        · rintro ⟨ip, hip, hcond, hrec⟩
          exact ⟨ip, List.mem_cons_of_mem _ hip, hcond, hrec⟩
        · rintro ⟨ip, hip, hcond, hrec⟩
          rcases List.mem_cons.1 hip with h | h
          · subst h; exact absurd hcond hc
          · exact ⟨ip, h, hcond, hrec⟩

theorem mem_classify_snd (dA dB : List (String × IpInfo)) (l : List String)
    (rec : MismatchRec) :
    rec ∈ (classify dA dB l).2 ↔
      ∃ ip ∈ l, ¬condEq dA dB ip ∧
        rec = ⟨ip, (getInfo dA ip).rows, (getInfo dB ip).rows,
          (getInfo dA ip).id_tag, (getInfo dA ip).serial_number,
          (getInfo dB ip).id_tag, (getInfo dB ip).serial_number⟩ := by
  induction l with
  | nil => simp [classify]
  | cons ip0 rest ih =>
      by_cases hc : condEq dA dB ip0
      · simp only [classify, if_pos hc, ih]
        constructor
        · rintro ⟨ip, hip, hcond, hrec⟩
          exact ⟨ip, List.mem_cons_of_mem _ hip, hcond, hrec⟩
        · rintro ⟨ip, hip, hcond, hrec⟩
          rcases List.mem_cons.1 hip with h | h
          · subst h; exact absurd hc hcond
          · exact ⟨ip, h, hcond, hrec⟩
      · simp only [classify, if_neg hc, List.mem_cons, ih]
        constructor
        · rintro (h | ⟨ip, hip, hcond, hrec⟩)
          · exact ⟨ip0, Or.inl rfl, hc, h⟩
          · exact ⟨ip, Or.inr hip, hcond, hrec⟩
        · rintro ⟨ip, hip | hip, hcond, hrec⟩
          · subst hip; exact Or.inl hrec
          · exact Or.inr ⟨ip, hip, hcond, hrec⟩

theorem mem_matchKeys_iff (a b : List Row) (k : String) :
    k ∈ matchKeys a b ↔
      k ∈ common_ips a b ∧
        condEq (load_csv_as_dict a) (load_csv_as_dict b) k := by
  rw [matchKeys, duplicates_across]
  constructor
  · intro h
    rcases List.mem_map.1 h with ⟨rec, hrec, hk⟩
    rcases (mem_classify_fst _ _ _ _).1 hrec with ⟨ip, hip, hcond, hform⟩
    have : rec.ip_address = ip := by rw [hform]
    rw [← hk, this]
    exact ⟨hip, hcond⟩
  · rintro ⟨hmem, hcond⟩
    refine List.mem_map.2 ⟨⟨k, _, _, _, _⟩, (mem_classify_fst _ _ _ _).2
      ⟨k, hmem, hcond, rfl⟩, rfl⟩

theorem mem_conflictKeys_iff (a b : List Row) (k : String) :
    k ∈ conflictKeys a b ↔
      k ∈ common_ips a b ∧
        ¬condEq (load_csv_as_dict a) (load_csv_as_dict b) k := by
  rw [conflictKeys, mismatches]
  constructor
  · intro h
    rcases List.mem_map.1 h with ⟨rec, hrec, hk⟩
    rcases (mem_classify_snd _ _ _ _).1 hrec with ⟨ip, hip, hcond, hform⟩
    have : rec.ip_address = ip := by rw [hform]
    rw [← hk, this]
    exact ⟨hip, hcond⟩
  · rintro ⟨hmem, hcond⟩
    refine List.mem_map.2 ⟨⟨k, _, _, _, _, _, _⟩, (mem_classify_snd _ _ _ _).2
      ⟨k, hmem, hcond, rfl⟩, rfl⟩

theorem mem_common_iff (a b : List Row) (k : String) :
    k ∈ common_ips a b ↔ k ∈ ipSet a ∧ k ∈ ipSet b := by
  simp [common_ips, List.mem_filter]

theorem mem_cbs_only_iff (a b : List Row) (k : String) :
    k ∈ cbs_only_ips a b ↔ k ∈ ipSet a ∧ k ∉ ipSet b := by
  simp [cbs_only_ips, List.mem_filter]

theorem mem_poco_only_iff (a b : List Row) (k : String) :
    k ∈ poco_only_ips a b ↔ k ∈ ipSet b ∧ k ∉ ipSet a := by
  simp [poco_only_ips, List.mem_filter]

/-- For a key in the intersection, the stored comparison data comes from
the last occurrence on each side. -/
theorem common_last (a b : List Row) (k : String) (h : k ∈ common_ips a b) :
    k ≠ "" ∧ ∃ ra rb, lastOcc a k = some ra ∧ lastOcc b k = some rb ∧
      getInfo (load_csv_as_dict a) k =
        ⟨occPositions 2 a k, pyUpper (pyStrip ra.id_tag),
          pyUpper (pyStrip ra.serial_number)⟩ ∧
      getInfo (load_csv_as_dict b) k =
        ⟨occPositions 2 b k, pyUpper (pyStrip rb.id_tag),
          pyUpper (pyStrip rb.serial_number)⟩ := by
  rw [mem_common_iff] at h
  have hka := (mem_ipSet_iff a k).1 h.1
  have hk : k ≠ "" := hka.1
  refine ⟨hk, ?_⟩
  have hfa := load_find a k hk
  have hfb := load_find b k hk
  cases hra : lastOcc a k with
  | none =>
      rw [hra] at hfa
      have := (dictFind_isSome_iff k (load_csv_as_dict a)).2 h.1
      rw [hfa] at this
      simp at this
  | some ra =>
      cases hrb : lastOcc b k with
      | none =>
          rw [hrb] at hfb
          have := (dictFind_isSome_iff k (load_csv_as_dict b)).2 h.2
          rw [hfb] at this
          simp at this
      | some rb =>
          rw [hra] at hfa
          rw [hrb] at hfb
          exact ⟨ra, rb, rfl, rfl, by simp [getInfo, hfa],
            by simp [getInfo, hfb]⟩

/-! Generic sum lemmas used for the duplicate-count bound. -/

theorem sum_map_filter_le {α : Type} (f : α → Nat) (q : α → Bool)
    (l : List α) : ((l.filter q).map f).sum ≤ (l.map f).sum := by
  induction l with
  | nil => simp
  | cons a l ih =>
      by_cases h : q a = true <;> simp [List.filter, h] <;> omega

theorem sum_map_filter_eq_all {α : Type} (f : α → Nat) (q : α → Bool)
    (l : List α) (h1 : ∀ e ∈ l, 1 ≤ f e)
    (h2 : ((l.filter q).map f).sum = (l.map f).sum) :
    ∀ e ∈ l, q e = true := by
  induction l with
  | nil => simp
  | cons a l ih =>
      have h1' : ∀ e ∈ l, 1 ≤ f e :=
        fun e he => h1 e (List.mem_cons_of_mem _ he)
      by_cases h : q a = true
      · simp only [List.filter, h, List.map_cons, List.sum_cons] at h2
        have h2' : ((l.filter q).map f).sum = (l.map f).sum := by omega
        intro e he
        rcases List.mem_cons.1 he with h' | h'
        · subst h'; exact h
        · exact ih h1' h2' e h'
      · exfalso
        simp only [List.filter, Bool.not_eq_true] at h2
        rw [Bool.not_eq_true] at h
        rw [h] at h2
        have hle := sum_map_filter_le f q l
        have hfa := h1 a (List.mem_cons_self _ _)
        simp only [List.map_cons, List.sum_cons] at h2
        omega

/-! The claims. -/

/-- C2: for every pair of sources the three key collections partition the
union of the key sets: `onlyA` and `onlyB` are disjoint, their union with
the intersection is the union of the key sets, and they are the true set
differences of the key sets. -/
theorem claim_c2 (a b : List Row) (k : String) :
    ¬(k ∈ cbs_only_ips a b ∧ k ∈ poco_only_ips a b) ∧
      ((k ∈ cbs_only_ips a b ∨ k ∈ poco_only_ips a b ∨ k ∈ common_ips a b) ↔
        (k ∈ ipSet a ∨ k ∈ ipSet b)) ∧
      (k ∈ cbs_only_ips a b ↔ k ∈ ipSet a ∧ k ∉ ipSet b) ∧
      (k ∈ poco_only_ips a b ↔ k ∈ ipSet b ∧ k ∉ ipSet a) := by
  simp only [mem_cbs_only_iff, mem_poco_only_iff, mem_common_iff]
  tauto

theorem claim_c2_witness :
    ¬("192.168.1.1" ∈ cbs_only_ips [(⟨"192.168.1.1", "t", "s"⟩ : Row)] [] ∧
      "192.168.1.1" ∈ poco_only_ips [(⟨"192.168.1.1", "t", "s"⟩ : Row)] []) :=
  (claim_c2 [(⟨"192.168.1.1", "t", "s"⟩ : Row)] [] "192.168.1.1").1

/-- C4: the duplicate detector returns exactly the keys occurring at least
twice, each mapped to its full ordered position list; positions are 1-based
and header-adjusted (the first data row is position 2, so position `p` is
the row at index `p - 2`); on the two-row scenario with a repeated key the
result is the single entry `("10.0.0.1", [2, 3])`. -/
theorem claim_c4 :
    (∀ (rows : List Row) (k : String) (ps : List Nat),
        dictFind k (find_duplicate_ips_in_csv rows) = some ps ↔
          (ps = occPositions 2 rows k ∧ 2 ≤ ps.length ∧ k ≠ "")) ∧
      (∀ (rows : List Row) (k : String) (ps : List Nat),
        dictFind k (find_duplicate_ips_in_csv rows) = some ps →
          ∀ p ∈ ps, ∃ r, rows.get? (p - 2) = some r ∧ pyStrip r.ip = k) ∧
      find_duplicate_ips_in_csv
          [⟨"10.0.0.1", "x1", "s1"⟩, ⟨"10.0.0.1", "x2", "s2"⟩] =
        [("10.0.0.1", [2, 3])] := by
  refine ⟨fun rows k ps => find_dup_find rows k ps, ?_, by decide⟩
  intro rows k ps h p hp
  obtain ⟨hps, -, -⟩ := (find_dup_find rows k ps).1 h
  subst hps
  obtain ⟨i, r, hget, hkey, hpi⟩ := occPositions_mem hp
  refine ⟨r, ?_, hkey⟩
  have : p - 2 = i := by omega
  rw [this]
  exact hget

theorem claim_c4_witness :
    dictFind "10.0.0.1"
        (find_duplicate_ips_in_csv
          [⟨"10.0.0.1", "x1", "s1"⟩, ⟨"10.0.0.1", "x2", "s2"⟩]) =
        some [2, 3] ↔
      ([2, 3] = occPositions 2
          [⟨"10.0.0.1", "x1", "s1"⟩, ⟨"10.0.0.1", "x2", "s2"⟩] "10.0.0.1" ∧
        2 ≤ [2, 3].length ∧ "10.0.0.1" ≠ "") :=
  claim_c4.1 [⟨"10.0.0.1", "x1", "s1"⟩, ⟨"10.0.0.1", "x2", "s2"⟩]
    "10.0.0.1" [2, 3]

/-- C9 (implicit): keys are compared case-sensitively — membership in a
source's key set is exact equality of the whitespace-trimmed key, with no
case normalization, so keys differing only in letter case stay distinct in
duplicate detection, the set differences and the intersection. -/
theorem claim_c9 :
    (∀ (rows : List Row) (k : String),
        k ∈ ipSet rows ↔ (k ≠ "" ∧ ∃ r ∈ rows, pyStrip r.ip = k)) ∧
      find_duplicate_ips_in_csv [⟨"a", "t", "s"⟩, ⟨"A", "t", "s"⟩] = [] ∧
      common_ips [⟨"a", "t", "s"⟩] [⟨"A", "t", "s"⟩] = [] ∧
      "a" ∈ cbs_only_ips [⟨"a", "t", "s"⟩] [⟨"A", "t", "s"⟩] ∧
      "A" ∈ poco_only_ips [⟨"a", "t", "s"⟩] [⟨"A", "t", "s"⟩] :=
  ⟨mem_ipSet_iff, by decide, by decide, by decide, by decide⟩

theorem claim_c9_witness :
    "a" ∈ ipSet [(⟨"a", "t", "s"⟩ : Row)] ↔
      (("a" : String) ≠ "" ∧
        ∃ r ∈ [(⟨"a", "t", "s"⟩ : Row)], pyStrip r.ip = "a") :=
  claim_c9.1 [(⟨"a", "t", "s"⟩ : Row)] "a"

/-- C1: every key in the intersection of the two key sets goes to exactly
one of {exact matches, conflicts}: it is an exact match if and only if the
last-known tag and serial of the key agree on both sides under
case-insensitive comparison (both sides trimmed and uppercased), and a
conflict otherwise; never both, never neither. -/
theorem claim_c1 (a b : List Row) (k : String) (hk : k ∈ common_ips a b) :
    ∃ ra rb, lastOcc a k = some ra ∧ lastOcc b k = some rb ∧
      (k ∈ matchKeys a b ↔
        (pyUpper (pyStrip ra.id_tag) = pyUpper (pyStrip rb.id_tag) ∧
          pyUpper (pyStrip ra.serial_number) =
            pyUpper (pyStrip rb.serial_number))) ∧
      (k ∈ conflictKeys a b ↔
        ¬(pyUpper (pyStrip ra.id_tag) = pyUpper (pyStrip rb.id_tag) ∧
          pyUpper (pyStrip ra.serial_number) =
            pyUpper (pyStrip rb.serial_number))) ∧
      (k ∈ matchKeys a b ∨ k ∈ conflictKeys a b) ∧
      ¬(k ∈ matchKeys a b ∧ k ∈ conflictKeys a b) := by
  obtain ⟨hk0, ra, rb, hra, hrb, hia, hib⟩ := common_last a b k hk
  have hcond_iff : condEq (load_csv_as_dict a) (load_csv_as_dict b) k ↔
      (pyUpper (pyStrip ra.id_tag) = pyUpper (pyStrip rb.id_tag) ∧
        pyUpper (pyStrip ra.serial_number) =
          pyUpper (pyStrip rb.serial_number)) := by
    unfold condEq
    rw [hia, hib]
  have hm := mem_matchKeys_iff a b k
  have hc := mem_conflictKeys_iff a b k
  refine ⟨ra, rb, hra, hrb, ?_, ?_, ?_, ?_⟩
  · rw [hm, hcond_iff.symm]
    exact ⟨fun h => h.2, fun h => ⟨hk, h⟩⟩
  · rw [hc]
    constructor
    · intro h
      exact fun hcond => h.2 (hcond_iff.2 hcond)
    · intro h
      exact ⟨hk, fun hcond => h (hcond_iff.1 hcond)⟩
  · by_cases h : condEq (load_csv_as_dict a) (load_csv_as_dict b) k
    · exact Or.inl (hm.2 ⟨hk, h⟩)
    · exact Or.inr (hc.2 ⟨hk, h⟩)
  · rintro ⟨h1, h2⟩
    exact (hc.1 h2).2 (hm.1 h1).2

theorem claim_c1_witness :
    "10.0.0.5" ∈ common_ips [(⟨"10.0.0.5", "ABC", "111"⟩ : Row)]
        [(⟨"10.0.0.5", "abc", "111"⟩ : Row)] ∧
      "10.0.0.5" ∈ matchKeys [(⟨"10.0.0.5", "ABC", "111"⟩ : Row)]
        [(⟨"10.0.0.5", "abc", "111"⟩ : Row)] := by
  refine ⟨by decide, ?_⟩
  obtain ⟨ra, rb, hra, hrb, hmatch, -, -, -⟩ :=
    claim_c1 [(⟨"10.0.0.5", "ABC", "111"⟩ : Row)]
      [(⟨"10.0.0.5", "abc", "111"⟩ : Row)] "10.0.0.5" (by decide)
  rw [show lastOcc [(⟨"10.0.0.5", "ABC", "111"⟩ : Row)] "10.0.0.5" =
      some ⟨"10.0.0.5", "ABC", "111"⟩ from by decide] at hra
  rw [show lastOcc [(⟨"10.0.0.5", "abc", "111"⟩ : Row)] "10.0.0.5" =
      some ⟨"10.0.0.5", "abc", "111"⟩ from by decide] at hrb
  cases hra
  cases hrb
  exact hmatch.2 (by decide)

/-- C3: when a key recurs in a source, the index keeps the full position
list but stores the tag and serial of the last occurrence (last-write-wins),
and the reconciler compares exactly these stored last-known values. -/
theorem claim_c3 (a b : List Row) (k : String) (info : IpInfo)
    (h : dictFind k (load_csv_as_dict a) = some info) :
    info.rows = occPositions 2 a k ∧
      (∃ r, lastOcc a k = some r ∧
        info.id_tag = pyUpper (pyStrip r.id_tag) ∧
        info.serial_number = pyUpper (pyStrip r.serial_number)) ∧
      (k ∈ common_ips a b →
        (k ∈ matchKeys a b ↔
          (info.id_tag = (getInfo (load_csv_as_dict b) k).id_tag ∧
            info.serial_number =
              (getInfo (load_csv_as_dict b) k).serial_number))) := by
  have hk : k ≠ "" := by
    intro hk
    subst hk
    rw [load_find_blank] at h
    cases h
  have hf := load_find a k hk
  cases hra : lastOcc a k with
  | none => rw [hra] at hf; rw [hf] at h; cases h
  | some ra =>
      rw [hra] at hf
      rw [hf] at h
      have hinfo : info = ⟨occPositions 2 a k, pyUpper (pyStrip ra.id_tag),
          pyUpper (pyStrip ra.serial_number)⟩ := (Option.some.inj h).symm
      subst hinfo
      refine ⟨rfl, ⟨ra, rfl, rfl, rfl⟩, ?_⟩
      intro hcommon
      rw [mem_matchKeys_iff]
      have hga : getInfo (load_csv_as_dict a) k =
          ⟨occPositions 2 a k, pyUpper (pyStrip ra.id_tag),
            pyUpper (pyStrip ra.serial_number)⟩ := by
        simp [getInfo, hf]
      constructor
      · rintro ⟨-, hcond⟩
        unfold condEq at hcond
        rw [hga] at hcond
        exact hcond
      · intro hcond
        refine ⟨hcommon, ?_⟩
        unfold condEq
        rw [hga]
        exact hcond

theorem claim_c3_witness :
    (⟨[2, 3], "B", "S2"⟩ : IpInfo).rows =
      occPositions 2 [(⟨"1.1.1.1", "a", "s1"⟩ : Row),
        (⟨"1.1.1.1", "b", "s2"⟩ : Row)] "1.1.1.1" :=
  (claim_c3 [(⟨"1.1.1.1", "a", "s1"⟩ : Row), (⟨"1.1.1.1", "b", "s2"⟩ : Row)]
    [] "1.1.1.1" ⟨[2, 3], "B", "S2"⟩ (by decide)).1

/-- C10 (implicit): every index entry has a non-empty, strictly increasing
position list, and its stored tag and serial are the trimmed-and-uppercased
tag and serial of the row at the last listed position. -/
theorem claim_c10 (rows : List Row) (k : String) (info : IpInfo)
    (h : dictFind k (load_csv_as_dict rows) = some info) :
    info.rows ≠ [] ∧ info.rows.Pairwise (· < ·) ∧
      ∃ p r, info.rows.getLast? = some p ∧ rows.get? (p - 2) = some r ∧
        pyStrip r.ip = k ∧ info.id_tag = pyUpper (pyStrip r.id_tag) ∧
        info.serial_number = pyUpper (pyStrip r.serial_number) := by
  have hk : k ≠ "" := by
    intro hk
    subst hk
    rw [load_find_blank] at h
    cases h
  have hf := load_find rows k hk
  cases hra : lastOcc rows k with
  | none => rw [hra] at hf; rw [hf] at h; cases h
  | some ra =>
      rw [hra] at hf
      rw [hf] at h
      have hinfo : info = ⟨occPositions 2 rows k, pyUpper (pyStrip ra.id_tag),
          pyUpper (pyStrip ra.serial_number)⟩ := (Option.some.inj h).symm
      subst hinfo
      rcases occPositions_getLast rows 2 k hk with ⟨-, hnone⟩ |
        ⟨p, r, i, hlastp, hlastr, hpi, hget⟩
      · rw [hra] at hnone; cases hnone
      · rw [hra] at hlastr
        have hrra : ra = r := Option.some.inj hlastr
        subst hrra
        have hkey := (lastOcc_mem hra).2
        refine ⟨?_, (occPositions_ge_and_sorted rows 2 k).2, p, ra, hlastp,
          ?_, hkey, rfl, rfl⟩
        · intro hnil
          have hnil' : occPositions 2 rows k = [] := hnil
          rw [hnil'] at hlastp
          cases hlastp
        · have : p - 2 = i := by omega
          rw [this]
          exact hget

theorem claim_c10_witness :
    (⟨[2, 3], "B", "S2"⟩ : IpInfo).rows ≠ [] :=
  (claim_c10 [(⟨"1.1.1.1", "a", "s1"⟩ : Row), (⟨"1.1.1.1", "b", "s2"⟩ : Row)]
    "1.1.1.1" ⟨[2, 3], "B", "S2"⟩ (by decide)).1

/-- C5: rows whose key is blank after trimming are invisible everywhere:
key sets contain no blank key, every reported position (in the duplicate
output and in the index) belongs to a row whose trimmed key equals the
non-blank entry key, and no output collection contains the blank key. -/
theorem claim_c5 (a b : List Row) :
    (∀ k ∈ ipSet a, k ≠ "") ∧
      (∀ k ps, dictFind k (find_duplicate_ips_in_csv a) = some ps →
        k ≠ "" ∧ ∀ p ∈ ps, ∃ r, a.get? (p - 2) = some r ∧
          pyStrip r.ip = k ∧ pyStrip r.ip ≠ "") ∧
      (∀ k info, dictFind k (load_csv_as_dict a) = some info →
        k ≠ "" ∧ ∀ p ∈ info.rows, ∃ r, a.get? (p - 2) = some r ∧
          pyStrip r.ip = k ∧ pyStrip r.ip ≠ "") ∧
      "" ∉ cbs_only_ips a b ∧ "" ∉ poco_only_ips a b ∧
      "" ∉ matchKeys a b ∧ "" ∉ conflictKeys a b := by
  have hip : ∀ (rows : List Row), "" ∉ ipSet rows := by
    intro rows hmem
    have := (dictFind_isSome_iff "" (load_csv_as_dict rows)).2 hmem
    rw [load_find_blank] at this
    cases this
  have hocc : ∀ (k : String) (ps : List Nat), ps = occPositions 2 a k →
      ∀ p ∈ ps, ∃ r, a.get? (p - 2) = some r ∧
        pyStrip r.ip = k ∧ pyStrip r.ip ≠ "" := by
    intro k ps hps p hp
    subst hps
    obtain ⟨i, r, hget, hkey, hpi⟩ := occPositions_mem hp
    have hne : pyStrip r.ip ≠ "" := by
      rw [hkey]
      intro hblank
      rw [hblank] at hp
      rw [occPositions_blank] at hp
      cases hp
    refine ⟨r, ?_, hkey, hne⟩
    have : p - 2 = i := by omega
    rw [this]
    exact hget
  refine ⟨fun k hk hblank => hip a (hblank ▸ hk), ?_, ?_, ?_, ?_, ?_, ?_⟩
  · intro k ps h
    obtain ⟨hps, -, hk⟩ := (find_dup_find a k ps).1 h
    exact ⟨hk, hocc k ps hps⟩
  · intro k info h
    have hk : k ≠ "" := by
      intro hblank
      subst hblank
      rw [load_find_blank] at h
      cases h
    have hf := load_find a k hk
    cases hra : lastOcc a k with
    | none => rw [hra] at hf; rw [hf] at h; cases h
    | some ra =>
        rw [hra] at hf
        rw [hf] at h
        have hinfo := (Option.some.inj h).symm
        refine ⟨hk, ?_⟩
        rw [hinfo]
        exact hocc k _ rfl
  · intro hmem
    exact hip a ((mem_cbs_only_iff a b "").1 hmem).1
  · intro hmem
    exact hip b ((mem_poco_only_iff a b "").1 hmem).1
  · intro hmem
    exact hip a ((mem_common_iff a b "").1
      ((mem_matchKeys_iff a b "").1 hmem).1).1
  · intro hmem
    exact hip a ((mem_common_iff a b "").1
      ((mem_conflictKeys_iff a b "").1 hmem).1).1

theorem claim_c5_witness :
    ("10.0.0.1" : String) ≠ "" :=
  (claim_c5 [(⟨"10.0.0.1", "t", "s"⟩ : Row)] []).1 "10.0.0.1" (by decide)

/-- C6: the total number of positions reported by the duplicate detector is
at most the number of non-blank-key rows, with equality only if every
non-blank key of the source occurs at least twice. -/
theorem claim_c6 (rows : List Row) :
    dupLenSum rows ≤ countNonBlank rows ∧
      (dupLenSum rows = countNonBlank rows →
        ∀ r ∈ rows, pyStrip r.ip ≠ "" →
          2 ≤ (occPositions 2 rows (pyStrip r.ip)).length) := by
  have htot : ((ipToRowsAux rows 2 []).map (fun e => e.2.length)).sum =
      countNonBlank rows := by
    rw [ipToRowsAux_sum rows 2 []]
    simp
  have hle : dupLenSum rows ≤ countNonBlank rows := by
    rw [dupLenSum, find_duplicate_ips_in_csv, ← htot]
    exact sum_map_filter_le _ _ _
  refine ⟨hle, ?_⟩
  intro heq r hr hne
  have hones : ∀ e ∈ ipToRowsAux rows 2 [], 1 ≤ e.2.length := by
    intro e he
    have := ipToRowsAux_snd_ne_nil rows 2 [] (by simp) e he
    cases hlen : e.2.length with
    | zero => exact absurd (List.length_eq_zero.1 hlen) this
    | succ m => omega
  have hall := sum_map_filter_eq_all (fun e => e.2.length)
    (fun p => decide (1 < p.2.length)) (ipToRowsAux rows 2 []) hones
    (by rw [← find_duplicate_ips_in_csv, ← dupLenSum, htot, heq])
  have hkne : pyStrip r.ip ≠ "" := hne
  have hoccne : occPositions 2 rows (pyStrip r.ip) ≠ [] :=
    occPositions_ne_nil_of_mem 2 hr rfl hkne
  have hfind : dictFind (pyStrip r.ip) (ipToRowsAux rows 2 []) =
      some (occPositions 2 rows (pyStrip r.ip)) := by
    rw [ipToRows_find rows (pyStrip r.ip) hkne, if_neg hoccne]
  have hmem := dictFind_mem hfind
  have := hall _ hmem
  simp only [decide_eq_true_eq] at this
  omega

theorem claim_c6_witness :
    2 ≤ (occPositions 2 [(⟨"1.1.1.1", "a", "x"⟩ : Row),
        (⟨"1.1.1.1", "b", "y"⟩ : Row)] (pyStrip "1.1.1.1")).length :=
  (claim_c6 [(⟨"1.1.1.1", "a", "x"⟩ : Row), (⟨"1.1.1.1", "b", "y"⟩ : Row)]).2
    (by decide) ⟨"1.1.1.1", "a", "x"⟩ (by decide) (by decide)

/-- C7: a shared key whose tag and serial are blank on both sides (it only
ever appeared with blank tag and serial) is still classified, via
empty-string comparison, as an exact match with empty tag and serial — not
a conflict, not an omission. -/
theorem claim_c7 (a b : List Row) (k : String) (hk : k ∈ common_ips a b)
    (hA : (getInfo (load_csv_as_dict a) k).id_tag = "" ∧
      (getInfo (load_csv_as_dict a) k).serial_number = "")
    (hB : (getInfo (load_csv_as_dict b) k).id_tag = "" ∧
      (getInfo (load_csv_as_dict b) k).serial_number = "") :
    (∃ rec ∈ duplicates_across a b, rec.ip_address = k ∧
      rec.id_tag = "" ∧ rec.serial_number = "") ∧
      k ∉ conflictKeys a b := by
  have hcond : condEq (load_csv_as_dict a) (load_csv_as_dict b) k := by
    unfold condEq
    rw [hA.1, hA.2, hB.1, hB.2]
    exact ⟨rfl, rfl⟩
  constructor
  · refine ⟨⟨k, (getInfo (load_csv_as_dict a) k).rows,
      (getInfo (load_csv_as_dict b) k).rows,
      (getInfo (load_csv_as_dict a) k).id_tag,
      (getInfo (load_csv_as_dict a) k).serial_number⟩,
      ?_, rfl, hA.1, hA.2⟩
    rw [duplicates_across]
    exact (mem_classify_fst _ _ _ _).2 ⟨k, hk, hcond, rfl⟩
  · intro hmem
    exact ((mem_conflictKeys_iff a b k).1 hmem).2 hcond

theorem claim_c7_witness :
    (∃ rec ∈ duplicates_across [(⟨"1.2.3.4", "", ""⟩ : Row)]
        [(⟨"1.2.3.4", " ", ""⟩ : Row)], rec.ip_address = "1.2.3.4" ∧
      rec.id_tag = "" ∧ rec.serial_number = "") ∧
      "1.2.3.4" ∉ conflictKeys [(⟨"1.2.3.4", "", ""⟩ : Row)]
        [(⟨"1.2.3.4", " ", ""⟩ : Row)] :=
  claim_c7 [(⟨"1.2.3.4", "", ""⟩ : Row)] [(⟨"1.2.3.4", " ", ""⟩ : Row)]
    "1.2.3.4" (by decide) (by decide) (by decide)

/-! The fallible layer: column access can raise `KeyError` (missing
required column) and opening a source can fail, as in the Python original
where these propagate as exceptions.  `__main__` (source lines 122-197)
computes both duplicate dicts and the comparison before printing anything,
so any such error aborts the run before any report section is emitted. -/

/-- A raw CSV file: its header and its data rows, each a list of cells. -/
structure RawCsv where
  header : List String
  rows : List (List String)
deriving DecidableEq

/-- Index of a column name in the header, if present. -/
def colIndex (col : String) : List String → Option Nat
  | [] => none
  | c :: rest => if c = col then some 0 else (colIndex col rest).map (· + 1)

/-- Python's `row[col]` on a `csv.DictReader` row: `KeyError` when the
column is absent from the header (rows are assumed as wide as the header,
as in the tool's inputs). -/
def getCol (header cells : List String) (col : String) :
    Except String String :=
  match colIndex col header with
  | none => .error ("KeyError: " ++ col)
  | some i => .ok (cells.getD i "")

/-- The scan loop of `find_duplicate_ips_in_csv` over raw rows: only the
`IP Address` column is ever read (source line 17), and the first row
missing it aborts the scan. -/
def findDupAux (header : List String) :
    List (List String) → Nat → List (String × List Nat) →
    Except String (List (String × List Nat))
  | [], _, acc => .ok acc
  | cells :: rest, n, acc =>
      match getCol header cells "IP Address" with
      | .error e => .error e
      | .ok ipRaw =>
          if pyStrip ipRaw = "" then findDupAux header rest (n + 1) acc
          else findDupAux header rest (n + 1) (addRowTo acc (pyStrip ipRaw) n)

/-- `find_duplicate_ips_in_csv` on a raw file. -/
def findDupChecked (csv : RawCsv) :
    Except String (List (String × List Nat)) :=
  match findDupAux csv.header csv.rows 2 [] with
  | .error e => .error e
  | .ok m => .ok (m.filter (fun p => decide (1 < p.2.length)))

/-- `find_duplicate_ips_in_csv(filename)` where opening the file itself
may already fail (`UnreadableSource`). -/
def findDupRun (src : Except String RawCsv) :
    Except String (List (String × List Nat)) :=
  match src with
  | .error e => .error e
  | .ok csv => findDupChecked csv

/-- The scan loop of `load_csv_as_dict` over raw rows (source lines 43-66):
`IP Address` is read first; `ID Tag` and `Serial Number` are only read for
rows whose trimmed key is non-blank. -/
def loadCheckedAux (header : List String) :
    List (List String) → Nat → List (String × IpInfo) →
    Except String (List (String × IpInfo))
  | [], _, acc => .ok acc
  | cells :: rest, n, acc =>
      match getCol header cells "IP Address" with
      | .error e => .error e
      | .ok ipRaw =>
          if pyStrip ipRaw = "" then loadCheckedAux header rest (n + 1) acc
          else
            match getCol header cells "ID Tag" with
            | .error e => .error e
            | .ok tagRaw =>
                match getCol header cells "Serial Number" with
                | .error e => .error e
                | .ok serRaw =>
                    loadCheckedAux header rest (n + 1)
                      (dictUpdate acc (pyStrip ipRaw)
                        (pyUpper (pyStrip tagRaw))
                        (pyUpper (pyStrip serRaw)) n)

/-- `load_csv_as_dict(filename)` on a fallible source. -/
def loadRun (src : Except String RawCsv) :
    Except String (List (String × IpInfo)) :=
  match src with
  | .error e => .error e
  | .ok csv => loadCheckedAux csv.header csv.rows 2 []

/-- The pure comparison of `compare_csvs` once both dicts are loaded
(source lines 83-120). -/
def compare_core (dA dB : List (String × IpInfo)) :
    List MatchRec × List MismatchRec × List String × List String :=
  let keysA := dA.map Prod.fst
  let keysB := dB.map Prod.fst
  let res := classify dA dB (keysA.filter (fun ip => decide (ip ∈ keysB)))
  (res.1, res.2, keysA.filter (fun ip => decide (ip ∉ keysB)),
    keysB.filter (fun ip => decide (ip ∉ keysA)))

/-- `compare_csvs(file1, file2)`: loads file 1, then file 2, then compares;
the first load error aborts (source lines 79-80). -/
def compareRun (f1 f2 : Except String RawCsv) :
    Except String
      (List MatchRec × List MismatchRec × List String × List String) :=
  match loadRun f1 with
  | .error e => .error e
  | .ok dA =>
      match loadRun f2 with
      | .error e => .error e
      | .ok dB => .ok (compare_core dA dB)

/-- One of the six report sections, carrying the data it renders. -/
inductive ReportSection where
  | dupA : List (String × List Nat) → ReportSection
  | dupB : List (String × List Nat) → ReportSection
  | onlyA : List String → ReportSection
  | onlyB : List String → ReportSection
  | matches : List MatchRec → ReportSection
  | conflicts : List MismatchRec → ReportSection
deriving DecidableEq

/-- `__main__` (source lines 122-197): the two duplicate scans and the
comparison all run before the first print, so the emitted section list is
either all six sections (in the fixed order of the source) or, on the
first error, nothing at all. -/
def mainRun (f1 f2 : Except String RawCsv) :
    List ReportSection × Option String :=
  match findDupRun f1 with
  | .error e => ([], some e)
  | .ok d1 =>
      match findDupRun f2 with
      | .error e => ([], some e)
      | .ok d2 =>
          match compareRun f1 f2 with
          | .error e => ([], some e)
          | .ok res =>
              ([.dupA d1, .dupB d2, .onlyA res.2.2.1, .onlyB res.2.2.2,
                .matches res.1, .conflicts res.2.1], none)

/-- C8: a fatal error on either input (missing required column, unreadable
source) terminates the run at its first occurrence with no report output:
the error of the earliest failing stage is the run's error, a failing run
emits zero report sections, and a successful run emits all six. -/
theorem claim_c8 (f1 f2 : Except String RawCsv) :
    ((mainRun f1 f2).2.isSome → (mainRun f1 f2).1 = []) ∧
      (∀ e, findDupRun f1 = .error e → mainRun f1 f2 = ([], some e)) ∧
      (∀ e d1, findDupRun f1 = .ok d1 → findDupRun f2 = .error e →
        mainRun f1 f2 = ([], some e)) ∧
      (∀ e d1 d2, findDupRun f1 = .ok d1 → findDupRun f2 = .ok d2 →
        compareRun f1 f2 = .error e → mainRun f1 f2 = ([], some e)) ∧
      (∀ csv, f1 = .ok csv → colIndex "IP Address" csv.header = none →
        csv.rows ≠ [] → mainRun f1 f2 = ([], some ("KeyError: " ++ "IP Address"))) ∧
      ((mainRun f1 f2).2 = none → (mainRun f1 f2).1.length = 6) := by
  refine ⟨?_, ?_, ?_, ?_, ?_, ?_⟩
  · intro h
    cases hf1 : findDupRun f1 with
    | error e => simp [mainRun, hf1]
    | ok d1 =>
        cases hf2 : findDupRun f2 with
        | error e => simp [mainRun, hf1, hf2]
        | ok d2 =>
            cases hc : compareRun f1 f2 with
            | error e => simp [mainRun, hf1, hf2, hc]
            | ok res => simp [mainRun, hf1, hf2, hc] at h
  · intro e h
    simp [mainRun, h]
  · intro e d1 h1 h2
    simp [mainRun, h1, h2]
  · intro e d1 d2 h1 h2 h3
    simp [mainRun, h1, h2, h3]
  · intro csv h1 hcol hrows
    subst h1
    have hget : ∀ cells, getCol csv.header cells "IP Address" =
        .error ("KeyError: " ++ "IP Address") := by
      intro cells
      rw [getCol, hcol]
    cases hrows' : csv.rows with
    | nil => exact absurd hrows' hrows
    | cons cells rest =>
        have haux : findDupAux csv.header csv.rows 2 [] =
            .error ("KeyError: " ++ "IP Address") := by
          rw [hrows']
          simp [findDupAux, hget cells]
        have herr : findDupRun (.ok csv) =
            .error ("KeyError: " ++ "IP Address") := by
          simp [findDupRun, findDupChecked, haux]
        simp [mainRun, herr]
  · intro h
    cases hf1 : findDupRun f1 with
    | error e => simp [mainRun, hf1] at h
    | ok d1 =>
        cases hf2 : findDupRun f2 with
        | error e => simp [mainRun, hf1, hf2] at h
        | ok d2 =>
            cases hc : compareRun f1 f2 with
            | error e => simp [mainRun, hf1, hf2, hc] at h
            | ok res => simp [mainRun, hf1, hf2, hc]

theorem claim_c8_witness :
    mainRun (Except.ok ⟨["Location"], [["Library"]]⟩)
        (Except.ok ⟨["Location"], []⟩) =
      ([], some ("KeyError: " ++ "IP Address")) :=
  (claim_c8 (Except.ok ⟨["Location"], [["Library"]]⟩)
      (Except.ok ⟨["Location"], []⟩)).2.2.2.2.1
    ⟨["Location"], [["Library"]]⟩ rfl rfl (by decide)

end CbsFinder
